import Mathlib

/-!
Verification development for the bwrap_compose repository.

The Python modules are shallowly embedded as executable Lean definitions:

* `composer.py`  → `groupArgs`, `bucketize`, `organizeArgs`, `composeProfiles`
* `parser.py`    → `parseLoop`, `parseBwrapCommand`
* `builder.py`   → `categoriseArgs`, `buildBwrapCommand`
* `conflicts.py` → `detectConflicts` and its four check functions
* `config.py`    → `resolveExtends`, `loadProfile`

Python dicts are embedded as insertion-ordered association lists, Python
sets as duplicate-free lists in first-insertion order, and Python tuples
used for argument groups as Lean lists.  Optional dict keys become
`Option` fields.  File-system access, path canonicalisation and
YAML/JSON parsing are abstracted into a `FileSystem` record whose
`readFile` returns already-parsed profile data.  Exceptions become
`Except`, and the recursion of `load_profile` is bounded by explicit
fuel.  String primitives that the Lean kernel cannot evaluate
(`String.splitOn`, `String.toLower`, the `≤` order used by `sorted`)
are re-implemented over `List Char`, matching Python semantics on the
code-point level.
-/

namespace BwrapCompose

/-- Python `sorted` on strings: a stable ascending sort under the
code-point lexicographic order (Lean's `≤` on `String`, which matches
Python's `str` comparison). -/
def sortStr (l : List String) : List String :=
  List.insertionSort (· ≤ ·) l

/-- Split a character list on a separator character (so that the kernel
can evaluate it; `String.splitOn` does not reduce). -/
def splitChars (sep : Char) : List Char → List (List Char)
  | [] => [[]]
  | c :: cs =>
    match splitChars sep cs with
    | [] => [[]]
    | x :: xs => if c = sep then [] :: x :: xs else (c :: x) :: xs

/-- Split a string on a separator character. -/
def splitStr (sep : Char) (s : String) : List String :=
  (splitChars sep s.data).map String.mk

/-- Python `str.lower` (character-wise). -/
def toLowerStr (s : String) : String := String.mk (s.data.map Char.toLower)

/-- Python `sep.join(l)`. -/
def joinSep (sep : String) : List String → String
  | [] => ""
  | [x] => x
  | x :: y :: xs => x ++ sep ++ joinSep sep (y :: xs)

/-- A YAML value that may be a single string or a list of strings
(the `run`, `tmpfs`, `dev`, `proc` profile keys admit both shapes). -/
inductive StrOrList where
  | str (s : String)
  | list (l : List String)
deriving DecidableEq, Repr

/-- A mount entry: a Python dict with optional `host`, `container`,
`mode` keys (`none` = key absent). -/
structure Mount where
  host : Option String
  container : Option String
  mode : Option String
deriving DecidableEq, Repr

/-- A profile dict.  `none` on a field means the dict key is absent.
For `run` the outer `Option` is key presence and the inner `Option`
distinguishes an explicit `None` value from a string/list value. -/
structure Profile where
  mounts : Option (List Mount) := none
  env : Option (List (String × String)) := none
  args : Option (List String) := none
  run : Option (Option StrOrList) := none
  tmpfs : Option StrOrList := none
  dev : Option StrOrList := none
  proc : Option StrOrList := none
deriving DecidableEq, Repr

/-! ### Flag tables

`composer.py`, `parser.py` and `builder.py` each repeat the same
literal flag sets; they are defined once here. -/

/-- `_ONE_ARG_FLAGS` (identical in composer.py, parser.py, builder.py). -/
def oneArgFlags : List String :=
  ["--unsetenv", "--chdir", "--tmpfs", "--dir", "--proc", "--dev",
   "--remount-ro", "--uid", "--gid", "--hostname", "--lock-file",
   "--file", "--bind-data", "--ro-bind-data", "--perms", "--size", "--chmod"]

/-- composer.py `_TWO_ARG_FLAGS`. -/
def twoArgFlags : List String :=
  ["--setenv", "--symlink",
   "--bind", "--bind-try", "--dev-bind", "--dev-bind-try",
   "--ro-bind", "--ro-bind-try"]

/-- `_NAMESPACE_FLAGS` (composer.py, builder.py) = `_ZERO_ARG_FLAGS`
(parser.py). -/
def nsFlags : List String :=
  ["--unshare-user", "--unshare-user-try", "--unshare-ipc",
   "--unshare-pid", "--unshare-net", "--unshare-uts",
   "--unshare-cgroup", "--unshare-cgroup-try", "--unshare-all",
   "--share-net", "--die-with-parent", "--as-pid-1",
   "--new-session", "--clearenv"]

/-- `_DIR_FLAGS`. -/
def dirFlags : List String := ["--dir"]

/-- `_LATE_FLAGS`. -/
def lateFlags : List String := ["--chdir"]

/-- parser.py `_BIND_FLAGS`. -/
def bindFlags : List String :=
  ["--bind", "--bind-try", "--dev-bind", "--dev-bind-try",
   "--ro-bind", "--ro-bind-try"]

/-- parser.py `_TWO_ARG_FLAGS` (key/value style). -/
def parserTwoArgFlags : List String := ["--setenv", "--symlink"]

/-- parser.py `_RO_BIND_FLAGS`. -/
def roBindFlags : List String := ["--ro-bind", "--ro-bind-try"]

/-- builder.py `_RO_MODES`. -/
def roModes : List String := ["ro", "readonly"]

/-! ### composer.py -/

/-- `_group_args`: group raw bwrap args into logical tuples.  The
Python index conditions `i + 2 < len(args)` / `i + 1 < len(args)`
become pattern-matching on the remaining token list. -/
def groupArgs : List String → List (List String)
  | t :: a :: b :: rest =>
    if t ∈ twoArgFlags then [t, a, b] :: groupArgs rest
    else if t ∈ oneArgFlags then [t, a] :: groupArgs (b :: rest)
    else [t] :: groupArgs (a :: b :: rest)
  | [t, a] => if t ∈ oneArgFlags then [[t, a]] else [t] :: groupArgs [a]
  | [t] => [[t]]
  | [] => []

/-- The four accumulator lists of `_organize_args`. -/
structure Buckets where
  ns : List String
  dirs : List (String × String)
  late : List (String × String)
  other : List String
deriving DecidableEq, Repr

/-- The scanning loop of `_organize_args`: classify tokens into the
namespace / dirs / late / other buckets.  The branch order mirrors the
source (namespace, dir, late, two-arg, one-arg, other); the index
bound checks become pattern-matching on the remaining tokens. -/
def bucketize : List String → Buckets
  | [] => ⟨[], [], [], []⟩
  | [t] =>
    if t ∈ nsFlags then ⟨[t], [], [], []⟩ else ⟨[], [], [], [t]⟩
  | [t, a] =>
    if t ∈ nsFlags then
      let b := bucketize [a]
      ⟨t :: b.ns, b.dirs, b.late, b.other⟩
    else if t ∈ dirFlags then ⟨[], [(t, a)], [], []⟩
    else if t ∈ lateFlags then ⟨[], [], [(t, a)], []⟩
    else if t ∈ oneArgFlags then ⟨[], [], [], [t, a]⟩
    else
      let b := bucketize [a]
      ⟨b.ns, b.dirs, b.late, t :: b.other⟩
  | t :: a :: b :: rest =>
    if t ∈ nsFlags then
      let x := bucketize (a :: b :: rest)
      ⟨t :: x.ns, x.dirs, x.late, x.other⟩
    else if t ∈ dirFlags then
      let x := bucketize (b :: rest)
      ⟨x.ns, (t, a) :: x.dirs, x.late, x.other⟩
    else if t ∈ lateFlags then
      let x := bucketize (b :: rest)
      ⟨x.ns, x.dirs, (t, a) :: x.late, x.other⟩
    else if t ∈ twoArgFlags then
      let x := bucketize rest
      ⟨x.ns, x.dirs, x.late, t :: a :: b :: x.other⟩
    else if t ∈ oneArgFlags then
      let x := bucketize (b :: rest)
      ⟨x.ns, x.dirs, x.late, t :: a :: x.other⟩
    else
      let x := bucketize (a :: b :: rest)
      ⟨x.ns, x.dirs, x.late, t :: x.other⟩

/-- Flatten a list of `(flag, value)` pairs back into tokens. -/
def flatPairs (l : List (String × String)) : List String :=
  l.flatMap (fun p => [p.1, p.2])

/-- `_organize_args`: sort merged args into a consistent order by
category — sorted namespace flags, then dir flags, then other flags,
then late flags. -/
def organizeArgs (args : List String) : List String :=
  let b := bucketize args
  sortStr b.ns ++ flatPairs b.dirs ++ b.other ++ flatPairs b.late

/-- Append each element of `l` to `acc` unless already present: the
`if x not in acc: acc.append(x)` idiom used throughout composer.py. -/
def dedupAppend {α : Type} [DecidableEq α] (acc l : List α) : List α :=
  l.foldl (fun a x => if x ∈ a then a else a ++ [x]) acc

/-- Python dict assignment `d[k] = v` on an insertion-ordered
association list (keys are unique): update the key's entry in place if
it exists, else append a new entry. -/
def setKey : List (String × String) → String → String → List (String × String)
  | [], k, v => [(k, v)]
  | kv :: rest, k, v =>
    if kv.1 == k then (k, v) :: rest else kv :: setKey rest k v

/-- Python `base.update(upd)` for insertion-ordered dicts. -/
def envUpdate (base upd : List (String × String)) : List (String × String) :=
  upd.foldl (fun acc kv => setKey acc kv.1 kv.2) base

/-- `_as_list` (builder.py), also the
`[val] if isinstance(val, str) else (val or [])` normalisation used by
`compose_profiles` for the tmpfs/dev/proc keys. -/
def asList : Option StrOrList → List String
  | none => []
  | some (.str s) => [s]
  | some (.list l) => l

/-!
`compose_profiles` runs one loop over the input profiles, but each of
its accumulators (`mounts`, `env`, the seen argument groups, `run`,
`tmpfs`, `dev`, `proc`) is read and written independently of the
others, so the merge is embedded as one fold per field.  The flat
`merged["args"]` list is always the concatenation of the deduplicated
argument groups, so only the group list is accumulated and it is
flattened at the end.
-/

/-- The `mounts` accumulation of `compose_profiles`: union,
de-duplicated by exact dict equality. -/
def composeMounts (profiles : List Profile) : List Mount :=
  profiles.foldl (fun acc p => dedupAppend acc (p.mounts.getD [])) []

/-- The `env` accumulation of `compose_profiles`: later profiles
override earlier keys. -/
def composeEnv (profiles : List Profile) : List (String × String) :=
  profiles.foldl (fun acc p => envUpdate acc (p.env.getD [])) []

/-- The `seen_arg_groups` accumulation of `compose_profiles`. -/
def composeGroups (profiles : List Profile) : List (List String) :=
  profiles.foldl (fun acc p => dedupAppend acc (groupArgs (p.args.getD []))) []

/-- The `run` accumulation of `compose_profiles`: the last profile
having a `run` key wins (even when its value is `None`). -/
def composeRun (profiles : List Profile) : Option StrOrList :=
  profiles.foldl (fun acc p => match p.run with | some v => v | none => acc) none

/-- The `tmpfs`/`dev`/`proc` accumulation of `compose_profiles`:
union of unique paths. -/
def composePaths (f : Profile → Option StrOrList) (profiles : List Profile) : List String :=
  profiles.foldl (fun acc p => dedupAppend acc (asList (f p))) []

/-- `compose_profiles`: merge multiple profile dicts into a single
configuration.  All seven keys are present in the result. -/
def composeProfiles (profiles : List Profile) : Profile :=
  { mounts := some (composeMounts profiles)
    env := some (composeEnv profiles)
    args := some (organizeArgs (composeGroups profiles).flatten)
    run := some (composeRun profiles)
    tmpfs := some (.list (composePaths (fun p => p.tmpfs) profiles))
    dev := some (.list (composePaths (fun p => p.dev) profiles))
    proc := some (.list (composePaths (fun p => p.proc) profiles)) }

/-! ### parser.py -/

/-- The state built up by the scanning loop of `parse_bwrap_command`.
`mounts` and `env` are threaded as accumulators (mirroring the Python
loop); the `args` list and the `run` tail are returned. -/
structure ParseOut where
  mounts : List Mount
  env : List (String × String)
  args : List String
  run : Option (List String)
deriving DecidableEq, Repr

/-- The scanning loop of `parse_bwrap_command`.  The branch order
mirrors the source: `--` separator, bind flags, `--setenv`, two-arg
flags, one-arg flags, zero-arg flags, raw token. -/
def parseLoop (mounts : List Mount) (env : List (String × String)) :
    List String → ParseOut
  | [] => ⟨mounts, env, [], none⟩
  | [t] =>
    if t = "--" then ⟨mounts, env, [], some []⟩
    else ⟨mounts, env, [t], none⟩
  | [t, a] =>
    if t = "--" then ⟨mounts, env, [], some [a]⟩
    else if t ∈ oneArgFlags then
      let r := parseLoop mounts env []
      { r with args := t :: a :: r.args }
    else if t ∈ nsFlags then
      let r := parseLoop mounts env [a]
      { r with args := t :: r.args }
    else
      let r := parseLoop mounts env [a]
      { r with args := t :: r.args }
  | t :: a :: b :: rest3 =>
    if t = "--" then ⟨mounts, env, [], some (a :: b :: rest3)⟩
    else if t ∈ bindFlags then
      parseLoop
        (mounts ++ [{ host := some a, container := some b,
                      mode := some (if t ∈ roBindFlags then "ro" else "rw") }])
        env rest3
    else if t = "--setenv" then
      parseLoop mounts (setKey env a b) rest3
    else if t ∈ parserTwoArgFlags then
      let r := parseLoop mounts env rest3
      { r with args := t :: a :: b :: r.args }
    else if t ∈ oneArgFlags then
      let r := parseLoop mounts env (b :: rest3)
      { r with args := t :: a :: r.args }
    else if t ∈ nsFlags then
      let r := parseLoop mounts env (a :: b :: rest3)
      { r with args := t :: r.args }
    else
      let r := parseLoop mounts env (a :: b :: rest3)
      { r with args := t :: r.args }

/-- Skip a leading `bwrap` / `/usr/bin/bwrap` token if present. -/
def stripLauncher : List String → List String
  | [] => []
  | t :: rest => if t = "bwrap" ∨ t = "/usr/bin/bwrap" then rest else t :: rest

/-- Package the loop state as the result dict of `parse_bwrap_command`:
`mounts`, `env`, `args` are always present; the `run` key is added only
when a `--` separator was seen. -/
def finishParse (o : ParseOut) : Profile :=
  { mounts := some o.mounts
    env := some o.env
    args := some o.args
    run := match o.run with
           | none => none
           | some l => some (some (.list l)) }

/-- `parse_bwrap_command`, over an already-tokenised command. -/
def parseBwrapCommand (tokens : List String) : Profile :=
  finishParse (parseLoop [] [] (stripLauncher tokens))

/-- `shlex.split` restricted to quote-free input: split on spaces and
drop empty fields. -/
def tokenize (cmd : String) : List String :=
  ((splitChars ' ' cmd.data).filter (fun c => c ≠ [])).map String.mk

/-! ### builder.py -/

/-- The four lists produced by `_categorise_args` (note: unlike the
composer's `_organize_args`, the builder has no two-arg-flag branch). -/
structure BuildCats where
  ns : List String
  dirs : List String
  late : List String
  other : List String
deriving DecidableEq, Repr

/-- `_categorise_args`: split raw args into namespace / dir / late /
other groups. -/
def categoriseArgs : List String → BuildCats
  | [] => ⟨[], [], [], []⟩
  | [t] =>
    if t ∈ nsFlags then ⟨[t], [], [], []⟩ else ⟨[], [], [], [t]⟩
  | t :: a :: rest =>
    if t ∈ nsFlags then
      let c := categoriseArgs (a :: rest)
      ⟨t :: c.ns, c.dirs, c.late, c.other⟩
    else if t ∈ dirFlags then
      let c := categoriseArgs rest
      ⟨c.ns, t :: a :: c.dirs, c.late, c.other⟩
    else if t ∈ lateFlags then
      let c := categoriseArgs rest
      ⟨c.ns, c.dirs, t :: a :: c.late, c.other⟩
    else if t ∈ oneArgFlags then
      let c := categoriseArgs rest
      ⟨c.ns, c.dirs, c.late, t :: a :: c.other⟩
    else
      let c := categoriseArgs (a :: rest)
      ⟨c.ns, c.dirs, c.late, t :: c.other⟩

/-- `build_bwrap_command`.  `_expand_path` performs `~`/`$VAR`
expansion against the ambient OS environment, so it is abstracted as
the `expand` parameter (the quote-stripping/no-expansion special cases
are folded into it). -/
def buildBwrapCommand (expand : String → String) (config : Profile)
    (runCmd : Option (List String)) : List String :=
  let run := match runCmd with
    | some rc => rc
    | none =>
      match config.run with
      | some (some (.str s)) => ["/bin/sh", "-lc", "exec " ++ s]
      | some (some (.list l)) => l
      | _ => ["/usr/bin/env", "uv"]
  let c := categoriseArgs (config.args.getD [])
  let mountArgs := (config.mounts.getD []).flatMap (fun m =>
    let host := expand (m.host.getD "")
    let container := expand (m.container.getD "")
    if host = "" ∨ container = "" then []
    else
      let mode := toLowerStr (m.mode.getD "rw")
      let flag := if mode ∈ roModes then "--ro-bind" else "--bind"
      [flag, host, container])
  ["bwrap"] ++ c.ns
    ++ (asList config.tmpfs).flatMap (fun p => ["--tmpfs", p])
    ++ c.dirs
    ++ mountArgs
    ++ (asList config.dev).flatMap (fun p => ["--dev", p])
    ++ (asList config.proc).flatMap (fun p => ["--proc", p])
    ++ (config.env.getD []).flatMap (fun kv => ["--setenv", kv.1, kv.2])
    ++ c.other ++ c.late
    ++ ["--"] ++ run

/-! ### conflicts.py -/

/-- A single detected conflict. -/
structure Conflict where
  kind : String
  description : String
  severity : String
deriving DecidableEq, Repr

/-- `_normalise_mode`. -/
def normaliseMode (mode : String) : String :=
  if toLowerStr mode ∈ ["ro", "readonly"] then "ro" else "rw"

/-- The dict produced by `_quick_merge` (the lightweight merge used for
conflict detection). -/
structure MergedLite where
  mounts : List Mount
  env : List (String × String)
  args : List String
deriving DecidableEq, Repr

/-- `_quick_merge`. -/
def quickMerge (profiles : List Profile) : MergedLite :=
  { mounts := profiles.flatMap (fun p => p.mounts.getD [])
    env := profiles.foldl (fun acc p => envUpdate acc (p.env.getD [])) []
    args := profiles.flatMap (fun p => p.args.getD []) }

/-- `path_modes.setdefault(cp, set()).add(mode)`: the container-path to
mode-set dict, as an insertion-ordered association list whose values
are duplicate-free mode lists. -/
def addMode (acc : List (String × List String)) (cp mode : String) :
    List (String × List String) :=
  if acc.any (fun e => e.1 == cp) then
    acc.map (fun e => if e.1 == cp then (e.1, if mode ∈ e.2 then e.2 else e.2 ++ [mode]) else e)
  else acc ++ [(cp, [mode])]

/-- `_check_mount_mode_conflicts`: flag container paths that appear
with both ro and rw modes. -/
def checkMountModeConflicts (profiles : List Profile) : List Conflict :=
  let pathModes := profiles.foldl
    (fun acc p => (p.mounts.getD []).foldl
      (fun acc2 m => addMode acc2 (m.container.getD "") (normaliseMode (m.mode.getD "rw")))
      acc)
    []
  pathModes.filterMap (fun e =>
    if e.2.length > 1 then
      some ⟨"mount-mode",
            "Container path \x27" ++ e.1 ++ "\x27 is mounted with conflicting modes: "
              ++ joinSep ", " (sortStr e.2) ++ ". The last mount will take effect.",
            "warning"⟩
    else none)

/-- `PurePosixPath` components: an optional root marker followed by the
path components with empty and `.` components dropped. -/
def posixParts (p : String) : List String :=
  let root : List (List Char) := match p.data with | '/' :: _ => [['/']] | _ => []
  (root ++ (splitChars '/' p.data).filter (fun c => c ≠ [] ∧ c ≠ ['.'])).map String.mk

/-- `_is_subpath`: `child.relative_to(parent)` succeeds exactly when
the parent's components are a prefix of the child's. -/
def isSubpath (child parent : String) : Bool :=
  (posixParts parent).isPrefixOf (posixParts child)

/-- `_check_ro_writable_subdir`: flag writable mount points nested
under a read-only parent.  The Python `ro_paths`/`rw_paths` sets are
embedded as duplicate-free lists in first-insertion order. -/
def checkRoWritableSubdir (merged : MergedLite) : List Conflict :=
  let ro := dedupAppend [] (merged.mounts.filterMap (fun m =>
    if normaliseMode (m.mode.getD "rw") = "ro" then some (m.container.getD "") else none))
  let rw := dedupAppend [] (merged.mounts.filterMap (fun m =>
    if normaliseMode (m.mode.getD "rw") = "ro" then none else some (m.container.getD "")))
  rw.flatMap (fun rwp => ro.filterMap (fun rop =>
    if posixParts rwp ≠ posixParts rop ∧ isSubpath rwp rop then
      some ⟨"ro-writable-subdir",
            "Writable mount \x27" ++ rwp ++ "\x27 is nested under read-only mount \x27"
              ++ rop ++ "\x27. Ensure this is intentional.",
            "warning"⟩
    else none))

/-- Python `seen[k]` lookup on an association list. -/
def lookupKey (l : List (String × String)) (k : String) : Option String :=
  (l.find? (fun kv => kv.1 == k)).map (fun kv => kv.2)

/-- The env-override conflict emitted by `_check_env_overrides`. -/
def mkEnvOverride (k old new : String) : Conflict :=
  ⟨"env-override",
   "Environment variable \x27" ++ k ++ "\x27 is set to \x27" ++ old
     ++ "\x27 and later overridden to \x27" ++ new ++ "\x27.",
   "warning"⟩

/-- The loop body of `_check_env_overrides` over the stream of
`(key, value)` pairs, threading the `seen` dict.  Note the source
executes `seen[k] = v_str` on every pair, so `seen` holds the most
recently seen value of each key. -/
def envOverridesGo (seen : List (String × String)) :
    List (String × String) → List Conflict
  | [] => []
  | (k, v) :: rest =>
    (match lookupKey seen k with
     | some w => if w ≠ v then [mkEnvOverride k w v] else []
     | none => []) ++ envOverridesGo (setKey seen k v) rest

/-- `_check_env_overrides`: the two nested loops visit exactly the
concatenated stream of env items of all profiles in order. -/
def checkEnvOverrides (profiles : List Profile) : List Conflict :=
  envOverridesGo [] (profiles.flatMap (fun p => p.env.getD []))

/-- `_CONTRADICTING_NS_PAIRS`. -/
def contradictingNsPairs : List (String × String) := [("--unshare-net", "--share-net")]

/-- The ns-contradiction conflict emitted by
`_check_namespace_contradictions`. -/
def mkNsContradiction (a b : String) : Conflict :=
  ⟨"ns-contradiction",
   "Contradictory namespace flags \x27" ++ a ++ "\x27 and \x27" ++ b
     ++ "\x27 are both present.",
   "error"⟩

/-- `_check_namespace_contradictions`; `set(merged.get("args"))` is
used only for membership tests, so the arg list itself serves. -/
def checkNamespaceContradictions (merged : MergedLite) : List Conflict :=
  contradictingNsPairs.filterMap (fun pr =>
    if pr.1 ∈ merged.args ∧ pr.2 ∈ merged.args then
      some (mkNsContradiction pr.1 pr.2)
    else none)

/-- `detect_conflicts`. -/
def detectConflicts (profiles : List Profile) (merged : Option MergedLite) :
    List Conflict :=
  checkMountModeConflicts profiles
    ++ checkRoWritableSubdir (merged.getD (quickMerge profiles))
    ++ checkEnvOverrides profiles
    ++ checkNamespaceContradictions (merged.getD (quickMerge profiles))

/-! ### config.py -/

/-- A parsed profile file: the (possibly empty) normalised `extends`
list popped from the document, and the remaining profile data.  YAML
parsing, the single-entry `profiles` unwrapping, and the
string-to-list normalisation of `extends` happen before this value is
produced. -/
structure RawProfile where
  extendsList : List String
  body : Profile
deriving DecidableEq, Repr

/-- The ambient file system and path canonicalisation
(`Path.exists`, `Path.read_text` + parsing, `Path.resolve`),
abstracted. -/
structure FileSystem where
  pathExists : String → Bool
  readFile : String → Option RawProfile
  canon : String → String

/-- `Path` division `d / n`. -/
def joinPath (d n : String) : String := d ++ "/" ++ n

/-- `Path(path).parent`, for paths containing a `/`. -/
def parentDir (p : String) : String :=
  String.mk (List.intercalate ['/'] ((splitChars '/' p.data).dropLast))

/-- The inner loop of `_resolve_extends`: within one directory, try
the `.yaml`, `.yml`, `.json` suffixes in order, then the literal
name. -/
def resolveInDir (fs : String → Bool) (name d : String) : Option String :=
  if fs (joinPath d (name ++ ".yaml")) then some (joinPath d (name ++ ".yaml"))
  else if fs (joinPath d (name ++ ".yml")) then some (joinPath d (name ++ ".yml"))
  else if fs (joinPath d (name ++ ".json")) then some (joinPath d (name ++ ".json"))
  else if fs (joinPath d name) then some (joinPath d name)
  else none

/-- The outer loop of `_resolve_extends` over the directory list. -/
def resolveExtendsGo (fs : String → Bool) (name : String) : List String → Option String
  | [] => none
  | d :: ds =>
    match resolveInDir fs name d with
    | some p => some p
    | none => resolveExtendsGo fs name ds

/-- `_resolve_extends`: resolve a profile name referenced in
`extends`, searching the base directory then the extra search
directories. -/
def resolveExtends (fs : String → Bool) (name baseDir : String)
    (searchDirs : List String) : Option String :=
  resolveExtendsGo fs name (baseDir :: searchDirs)

/-- The errors `load_profile` can raise, plus fuel exhaustion for the
bounded embedding of its recursion. -/
inductive LoadErr where
  | cycle (real : String)
  | notFound (name : String) (fromPath : String)
  | readFail (path : String)
  | outOfFuel
deriving DecidableEq, Repr

/-- `load_profile`.  The `_visited` set of canonicalised paths is
threaded through the recursion (and returned, since the Python set is
mutated in place and shared with the caller).  The recursion over
parent profiles is bounded by `fuel`. -/
def loadProfile (fs : FileSystem) (sd : List String) :
    Nat → String → List String → Except LoadErr (Profile × List String)
  | 0, _, _ => .error .outOfFuel
  | fuel + 1, path, visited =>
    let real := fs.canon path
    if real ∈ visited then .error (.cycle real)
    else
      let visited1 := real :: visited
      match fs.readFile path with
      | none => .error (.readFail path)
      | some raw =>
        if raw.extendsList = [] then .ok (raw.body, visited1)
        else
          let step := fun (acc : Except LoadErr (List Profile × List String)) (n : String) =>
            match acc with
            | .error e => .error e
            | .ok (profs, vis) =>
              match resolveExtends fs.pathExists n (parentDir path) sd with
              | none => .error (.notFound n path)
              | some pp =>
                match loadProfile fs sd fuel pp vis with
                | .error e => .error e
                | .ok (prof, vis2) => .ok (profs ++ [prof], vis2)
          match raw.extendsList.foldl step (.ok ([], visited1)) with
          | .error e => .error e
          | .ok (parents, visited2) =>
            let base := composeProfiles parents
            .ok (composeProfiles [base, raw.body], visited2)

/-! ### Well-formedness of argument lists -/

/-- A complete argument group: a flag together with exactly the number
of value tokens it takes (raw tokens and zero-arg flags are singleton
groups).  `_group_args` produces a truncated group only when the token
list ends before a flag's values; well-formed bwrap argument lists
contain no such dangling flag. -/
def isCompleteGroup : List String → Bool
  | [t] => ¬(t ∈ twoArgFlags) ∧ ¬(t ∈ oneArgFlags)
  | [t, _] => t ∈ oneArgFlags
  | [t, _, _] => t ∈ twoArgFlags
  | _ => false

/-- A profile whose `args` list parses into complete flag groups. -/
def WellFormedArgs (p : Profile) : Prop :=
  ∀ g ∈ groupArgs (p.args.getD []), isCompleteGroup g = true

instance (p : Profile) : Decidable (WellFormedArgs p) := by
  unfold WellFormedArgs; infer_instance

/-! ### The env-override check tracks the most recent value

The following characterisation is used to settle C1: the conflict
emitted at each env item compares against the value of the *latest*
previous occurrence of the key (since `_check_env_overrides` executes
`seen[k] = v_str` for every item). -/

/-- The value attached to the latest occurrence of key `k` in the
already-scanned prefix of the env stream. -/
def lastValueBefore (k : String) (pre : List (String × String)) : Option String :=
  ((pre.filter (fun kv => kv.1 == k)).getLast?).map (fun kv => kv.2)

/-- Reference formulation of the env-override scan, phrased directly
in terms of the scanned prefix instead of the `seen` dict. -/
def envOverridesSpecGo (pre : List (String × String)) :
    List (String × String) → List Conflict
  | [] => []
  | (k, v) :: rest =>
    (match lastValueBefore k pre with
     | some w => if w ≠ v then [mkEnvOverride k w v] else []
     | none => []) ++ envOverridesSpecGo (pre ++ [(k, v)]) rest

/-- Reference formulation of `_check_env_overrides` on the flattened
env stream: a warning is emitted at exactly those items whose key has
occurred before with a *most recently seen* value different from the
new one, citing that most recent value and the new value. -/
def envOverridesSpec (s : List (String × String)) : List Conflict :=
  envOverridesSpecGo [] s


/-! ### Resolution order of `extends` -/

/-- The full candidate sequence probed by `_resolve_extends`, in probe
order: for each directory (base directory first, then the extra search
directories), the name with `.yaml`, `.yml`, `.json` appended, then
the literal name. -/
def candidateList (name baseDir : String) (searchDirs : List String) : List String :=
  (baseDir :: searchDirs).flatMap (fun d =>
    [joinPath d (name ++ ".yaml"), joinPath d (name ++ ".yml"),
     joinPath d (name ++ ".json"), joinPath d name])

/-- A file system with a single profile file `d/A.yaml` that extends a
parent named `P` which no candidate path provides. -/
def fsNotFound : FileSystem :=
  { pathExists := fun _ => false
    readFile := fun p => if p == "d/A.yaml" then some ⟨["P"], {}⟩ else none
    canon := id }


/-! ### Cycle detection -/

deriving instance DecidableEq for Except

/-- A file system with two profile files extending each other:
`d/A.yaml` extends `B` (resolving to `d/B.yaml`) and `d/B.yaml`
extends `A` (resolving back to `d/A.yaml`). -/
def fsAB : FileSystem :=
  { pathExists := fun p => p == "d/A.yaml" || p == "d/B.yaml"
    readFile := fun p =>
      if p == "d/A.yaml" then some ⟨["B"], {}⟩
      else if p == "d/B.yaml" then some ⟨["A"], {}⟩
      else none
    canon := id }


/-! ### Group classification (towards idempotence of composition)

`_organize_args` classifies each argument group by its shape and head
token; the following selectors express the four buckets on the level
of the group list produced by `_group_args`. -/

/-- The token of a namespace-flag singleton group. -/
def nsTok : List String → Option String
  | [t] => if t ∈ nsFlags then some t else none
  | _ => none

/-- The `(flag, value)` pair of a `--dir` group. -/
def dirPair : List String → Option (String × String)
  | [t, a] => if t ∈ dirFlags then some (t, a) else none
  | _ => none

/-- The `(flag, value)` pair of a `--chdir` group. -/
def latePair : List String → Option (String × String)
  | [t, a] => if t ∈ lateFlags then some (t, a) else none
  | _ => none

/-- Groups that are neither namespace, dir, nor late groups land in
the `other` bucket. -/
def isOtherG (g : List String) : Bool :=
  (nsTok g).isNone && (dirPair g).isNone && (latePair g).isNone

/-- The namespace tokens of a group list, in order of appearance. -/
def nsTokens (gs : List (List String)) : List String := gs.filterMap nsTok

/-- The group list in the bucket order produced by `_organize_args`:
sorted namespace singletons, dir groups, other groups, late groups. -/
def bucketGroups (gs : List (List String)) : List (List String) :=
  (sortStr (nsTokens gs)).map (fun t => [t])
    ++ gs.filter (fun g => (dirPair g).isSome)
    ++ gs.filter isOtherG
    ++ gs.filter (fun g => (latePair g).isSome)


/-! ### Claim theorems (first batch) -/

/-- C9: `compose_profiles` applied to the empty list of profiles
returns an all-empty profile: empty mounts, env, args, tmpfs, dev and
proc, and no run command (the `run` key is present but holds `None`,
i.e. no command is set). -/
theorem claim9_compose_empty :
    composeProfiles [] =
      { mounts := some [], env := some [], args := some [],
        run := some none,
        tmpfs := some (.list []), dev := some (.list []),
        proc := some (.list []) } := by
  decide

/-- C5: for every input, the composed `args` are the concatenation of
the four buckets in fixed order — lexicographically sorted namespace
flags, then `--dir` groups, then the remaining groups, then `--chdir`
groups; in particular `--unshare-all` is reordered before `--dir` in
`compose([{args: ["--dir", "/bin", "--unshare-all"]}])`. -/
theorem claim5_arg_bucket_order :
    (∀ profiles : List Profile,
      (composeProfiles profiles).args =
        some (sortStr (bucketize (composeGroups profiles).flatten).ns
          ++ flatPairs (bucketize (composeGroups profiles).flatten).dirs
          ++ (bucketize (composeGroups profiles).flatten).other
          ++ flatPairs (bucketize (composeGroups profiles).flatten).late))
    ∧ ((composeProfiles [{ args := some ["--dir", "/bin", "--unshare-all"] }]).args.getD []).indexOf "--unshare-all"
        < ((composeProfiles [{ args := some ["--dir", "/bin", "--unshare-all"] }]).args.getD []).indexOf "--dir" := by
  refine ⟨fun profiles => rfl, ?_⟩
  decide

/-- C6: argument-group deduplication is global and content-exact:
identical `["--dir", "/bin"]` groups from two profiles are merged (one
`--dir` in the result), while distinct groups `["--dir", "/bin"]` and
`["--dir", "/lib"]` are both kept (two `--dir` tokens, both values
present). -/
theorem claim6_group_dedup :
    (((composeProfiles [{ args := some ["--dir", "/bin"] },
                        { args := some ["--dir", "/bin"] }]).args.getD []).count "--dir" = 1)
    ∧ ("/bin" ∈ (composeProfiles [{ args := some ["--dir", "/bin"] },
                                  { args := some ["--dir", "/lib"] }]).args.getD [])
    ∧ ("/lib" ∈ (composeProfiles [{ args := some ["--dir", "/bin"] },
                                  { args := some ["--dir", "/lib"] }]).args.getD [])
    ∧ (((composeProfiles [{ args := some ["--dir", "/bin"] },
                          { args := some ["--dir", "/lib"] }]).args.getD []).count "--dir" = 2) := by
  decide

theorem lookupKey_setKey (l : List (String × String)) (k v k' : String) :
    lookupKey (setKey l k v) k' = if k' = k then some v else lookupKey l k' := by
  induction l with
  | nil =>
    by_cases h : k' = k
    · subst h; simp [setKey, lookupKey, List.find?]
    · have hb : (k == k') = false := by
        simp [beq_iff_eq]; exact fun he => h he.symm
      simp [setKey, lookupKey, List.find?, h, hb]
  | cons kv rest ih =>
    by_cases hk : kv.1 = k
    · by_cases h : k' = k
      · simp [setKey, lookupKey, List.find?, hk, h]
      · have hne : (k == k') = false := by
          simp [beq_iff_eq]
          intro he; exact absurd he.symm h
        have hne2 : (kv.1 == k') = false := by
          simp [beq_iff_eq, hk]
          intro he; exact absurd he.symm h
        simp [setKey, lookupKey, List.find?, hk, h, hne, hne2]
    · have hkb : (kv.1 == k) = false := by simp [beq_iff_eq, hk]
      by_cases hk' : kv.1 = k'
      · have h : ¬ (k' = k) := by rw [← hk']; exact hk
        simp [setKey, lookupKey, List.find?, hkb, hk', h]
      · have hk'b : (kv.1 == k') = false := by simp [beq_iff_eq, hk']
        have := ih
        simp only [setKey, hkb, Bool.false_eq_true, if_false]
        simp only [lookupKey, List.find?, hk'b] at *
        exact this

theorem lastValueBefore_append (k v k' : String) (pre : List (String × String)) :
    lastValueBefore k' (pre ++ [(k, v)]) =
      if k' = k then some v else lastValueBefore k' pre := by
  by_cases h : k' = k
  · subst h
    simp [lastValueBefore, List.filter_append]
  · have hb : (k == k') = false := by
      simp [beq_iff_eq]
      intro he; exact absurd he.symm h
    simp [lastValueBefore, List.filter_append, hb, h]

theorem envOverridesGo_eq_spec (s : List (String × String)) :
    ∀ (seen pre : List (String × String)),
      (∀ k, lookupKey seen k = lastValueBefore k pre) →
      envOverridesGo seen s = envOverridesSpecGo pre s := by
  induction s with
  | nil => intro seen pre _; rfl
  | cons kv rest ih =>
    intro seen pre h
    obtain ⟨k, v⟩ := kv
    have hnext : ∀ k', lookupKey (setKey seen k v) k'
        = lastValueBefore k' (pre ++ [(k, v)]) := by
      intro k'
      rw [lookupKey_setKey, lastValueBefore_append]
      by_cases hk : k' = k <;> simp [hk, h k']
    simp only [envOverridesGo, envOverridesSpecGo, h k, ih (setKey seen k v) (pre ++ [(k, v)]) hnext]

/-- C10: `parse_bwrap_command` discards a leading token exactly when it
is `bwrap` or `/usr/bin/bwrap`; any other first token is fed to the
scanning loop unchanged and, when it is not a recognised flag or the
`--` separator, becomes the first raw entry of the parsed `args`. -/
theorem claim10_launcher_token :
    (∀ rest : List String,
        parseBwrapCommand ("bwrap" :: rest) = finishParse (parseLoop [] [] rest)
      ∧ parseBwrapCommand ("/usr/bin/bwrap" :: rest) = finishParse (parseLoop [] [] rest))
  ∧ (∀ (t : String) (rest : List String),
        t ≠ "bwrap" → t ≠ "/usr/bin/bwrap" →
        parseBwrapCommand (t :: rest) = finishParse (parseLoop [] [] (t :: rest)))
  ∧ (∀ (t : String) (rest : List String),
        t ≠ "bwrap" → t ≠ "/usr/bin/bwrap" →
        t ≠ "--" → t ∉ bindFlags → t ≠ "--setenv" → t ∉ parserTwoArgFlags →
        t ∉ oneArgFlags → t ∉ nsFlags →
        ((parseBwrapCommand (t :: rest)).args.getD []).head? = some t) := by
  refine ⟨fun rest => ⟨?_, ?_⟩, fun t rest h1 h2 => ?_, fun t rest h1 h2 h3 h4 h5 h6 h7 h8 => ?_⟩
  · simp [parseBwrapCommand, stripLauncher]
  · simp [parseBwrapCommand, stripLauncher]
  · simp [parseBwrapCommand, stripLauncher, h1, h2]
  · have hs : stripLauncher (t :: rest) = t :: rest := by
      simp [stripLauncher, h1, h2]
    rw [parseBwrapCommand, hs]
    match rest with
    | [] =>
      simp [parseLoop, finishParse, h3]
    | [a] =>
      simp [parseLoop, finishParse, h3, h7, h8]
    | a :: b :: r =>
      simp [parseLoop, finishParse, h3, h4, h5, h6, h7, h8]

/-- C10 witness: the first statement instantiated at the command
`launcher --foo`: the non-launcher first token survives as a raw arg. -/
theorem claim10_witness :
    ("launcher" ≠ "bwrap" ∧ "launcher" ≠ "/usr/bin/bwrap"
      ∧ "launcher" ≠ "--" ∧ "launcher" ∉ bindFlags ∧ "launcher" ≠ "--setenv"
      ∧ "launcher" ∉ parserTwoArgFlags ∧ "launcher" ∉ oneArgFlags ∧ "launcher" ∉ nsFlags)
    ∧ ((parseBwrapCommand ["launcher", "--foo"]).args.getD []).head? = some "launcher" :=
  ⟨by decide,
   claim10_launcher_token.2.2 "launcher" ["--foo"] (by decide) (by decide) (by decide)
     (by decide) (by decide) (by decide) (by decide) (by decide)⟩

/-- C3: round trip of the command
`launcher --ro-bind / / --setenv A 1 -- /bin/sh`: parsing yields
exactly one read-only `/ → /` mount, env `{A: "1"}`, and
`run = ["/bin/sh"]`; rebuilding (under any path expansion that fixes
`/`) yields a command containing the consecutive tokens
`--ro-bind / /` and `--setenv A 1` and ending in `-- /bin/sh`. -/
theorem claim3_round_trip :
    parseBwrapCommand (tokenize "launcher --ro-bind / / --setenv A 1 -- /bin/sh")
      = { mounts := some [{ host := some "/", container := some "/", mode := some "ro" }],
          env := some [("A", "1")],
          args := some ["launcher"],
          run := some (some (.list ["/bin/sh"])) }
  ∧ ∀ expand : String → String, expand "/" = "/" →
      buildBwrapCommand expand
          (parseBwrapCommand (tokenize "launcher --ro-bind / / --setenv A 1 -- /bin/sh")) none
        = ["bwrap", "--ro-bind", "/", "/", "--setenv", "A", "1", "launcher", "--", "/bin/sh"]
      ∧ List.IsInfix ["--ro-bind", "/", "/"]
          (buildBwrapCommand expand
            (parseBwrapCommand (tokenize "launcher --ro-bind / / --setenv A 1 -- /bin/sh")) none)
      ∧ List.IsInfix ["--setenv", "A", "1"]
          (buildBwrapCommand expand
            (parseBwrapCommand (tokenize "launcher --ro-bind / / --setenv A 1 -- /bin/sh")) none)
      ∧ List.IsSuffix ["--", "/bin/sh"]
          (buildBwrapCommand expand
            (parseBwrapCommand (tokenize "launcher --ro-bind / / --setenv A 1 -- /bin/sh")) none) := by
  have hp : parseBwrapCommand (tokenize "launcher --ro-bind / / --setenv A 1 -- /bin/sh")
      = { mounts := some [{ host := some "/", container := some "/", mode := some "ro" }],
          env := some [("A", "1")],
          args := some ["launcher"],
          run := some (some (.list ["/bin/sh"])) } := by decide
  refine ⟨hp, fun expand h => ?_⟩
  have hb : buildBwrapCommand expand
      (parseBwrapCommand (tokenize "launcher --ro-bind / / --setenv A 1 -- /bin/sh")) none
      = ["bwrap", "--ro-bind", "/", "/", "--setenv", "A", "1", "launcher", "--", "/bin/sh"] := by
    rw [hp]
    simp [buildBwrapCommand, categoriseArgs, asList, h]
    decide
  refine ⟨hb, ?_, ?_, ?_⟩ <;> rw [hb] <;> decide

/-- C3 witness: the expansion hypothesis discharged at the identity
expansion. -/
theorem claim3_witness :
    (id "/" = "/")
    ∧ buildBwrapCommand id
        (parseBwrapCommand (tokenize "launcher --ro-bind / / --setenv A 1 -- /bin/sh")) none
      = ["bwrap", "--ro-bind", "/", "/", "--setenv", "A", "1", "launcher", "--", "/bin/sh"] :=
  ⟨rfl, (claim3_round_trip.2 id rfl).1⟩

/-- C1 counterexample: on the profile list
`[{env: {A: "1"}}, {env: {A: "2"}}, {env: {A: "1"}}]` the conflict
detector emits TWO env-override conflicts, not exactly one as claimed:
because `seen[k]` is overwritten at every occurrence, the third
profile's re-declaration of the first value is compared against `"2"`
(the most recent value), not against the first-seen `"1"`, and so also
produces a conflict. -/
theorem claim1_counterexample :
    (((detectConflicts
          [{ env := some [("A", "1")] }, { env := some [("A", "2")] },
           { env := some [("A", "1")] }] none).filter
        (fun c => c.kind == "env-override")).length = 2)
    ∧ ¬ (((detectConflicts
          [{ env := some [("A", "1")] }, { env := some [("A", "2")] },
           { env := some [("A", "1")] }] none).filter
        (fun c => c.kind == "env-override")).length = 1) := by
  decide

/-- C1 amended: scanning profiles in order, the env-override check
tracks the MOST RECENT value seen for each environment key; a
warning-severity env-override conflict is emitted exactly when a later
item sets an already-seen key to a value different from the most
recently seen value, citing that most recent value and the new value
(re-declaring a key with the value it currently holds emits nothing).
On `[{env: {A: "1"}}, {env: {A: "2"}}, {env: {A: "1"}}]` exactly two
env-override conflicts are emitted: 1-vs-2 and 2-vs-1. -/
theorem claim1_env_override_last_value :
    (∀ profiles : List Profile,
        checkEnvOverrides profiles
          = envOverridesSpec (profiles.flatMap (fun p => p.env.getD [])))
    ∧ ((detectConflicts
          [{ env := some [("A", "1")] }, { env := some [("A", "2")] },
           { env := some [("A", "1")] }] none).filter
        (fun c => c.kind == "env-override")
        = [mkEnvOverride "A" "1" "2", mkEnvOverride "A" "2" "1"]) := by
  constructor
  · intro profiles
    exact envOverridesGo_eq_spec _ [] [] (fun k => rfl)
  · decide

theorem resolveInDir_eq_find (fs : String → Bool) (name d : String) :
    resolveInDir fs name d =
      ([joinPath d (name ++ ".yaml"), joinPath d (name ++ ".yml"),
        joinPath d (name ++ ".json"), joinPath d name]).find? fs := by
  by_cases h1 : fs (joinPath d (name ++ ".yaml")) <;>
    by_cases h2 : fs (joinPath d (name ++ ".yml")) <;>
      by_cases h3 : fs (joinPath d (name ++ ".json")) <;>
        by_cases h4 : fs (joinPath d name) <;>
          simp [resolveInDir, List.find?, h1, h2, h3, h4]

theorem resolveExtendsGo_eq_find (fs : String → Bool) (name : String) :
    ∀ dirs : List String,
      resolveExtendsGo fs name dirs
        = (dirs.flatMap (fun d =>
            [joinPath d (name ++ ".yaml"), joinPath d (name ++ ".yml"),
             joinPath d (name ++ ".json"), joinPath d name])).find? fs := by
  intro dirs
  induction dirs with
  | nil => rfl
  | cons d ds ih =>
    rw [List.flatMap_cons, List.find?_append, ← resolveInDir_eq_find, ← ih]
    rw [show resolveExtendsGo fs name (d :: ds)
        = (match resolveInDir fs name d with
           | some p => some p
           | none => resolveExtendsGo fs name ds) from rfl]
    cases h : resolveInDir fs name d <;> simp [h, Option.orElse]

theorem foldl_except_error {σ : Type} (g : Except LoadErr σ → String → Except LoadErr σ)
    (hg : ∀ e n, g (.error e) n = .error e) (e : LoadErr) :
    ∀ l : List String, l.foldl g (.error e) = .error e := by
  intro l
  induction l with
  | nil => rfl
  | cons n ns ih => rw [List.foldl_cons, hg]; exact ih

/-- C2 counterexample: with both `d/N` and `d/N.yaml` present,
`extends: N` resolves to `d/N.yaml`, not to the literal file `d/N` as
claimed. -/
theorem claim2_counterexample :
    resolveExtends (fun p => p == "d/N" || p == "d/N.yaml") "N" "d" [] = some "d/N.yaml"
    ∧ resolveExtends (fun p => p == "d/N" || p == "d/N.yaml") "N" "d" [] ≠ some "d/N" := by
  decide

/-- C2 amended: each parent name is resolved by searching the
directory of the current file, then each configured extra search
directory; within each directory the name with `.yaml`, `.yml`,
`.json` appended is tried FIRST, in that order, and the literal name
LAST — the first existing candidate wins.  If no candidate exists
anywhere, loading fails with a not-found error. -/
theorem claim2_resolution_order :
    (∀ (fs : String → Bool) (name baseDir : String) (searchDirs : List String),
        resolveExtends fs name baseDir searchDirs
          = (candidateList name baseDir searchDirs).find? fs)
    ∧ (∀ (fs : FileSystem) (sd : List String) (fuel : Nat) (path : String)
          (visited : List String) (raw : RawProfile) (n : String) (ns : List String),
        fs.canon path ∉ visited →
        fs.readFile path = some raw →
        raw.extendsList = n :: ns →
        resolveExtends fs.pathExists n (parentDir path) sd = none →
        loadProfile fs sd (fuel + 1) path visited = .error (.notFound n path)) := by
  constructor
  · intro fs name baseDir searchDirs
    exact resolveExtendsGo_eq_find fs name (baseDir :: searchDirs)
  · intro fs sd fuel path visited raw n ns h1 h2 h3 h4
    simp only [loadProfile, if_neg h1, h2, h3, List.cons_ne_nil, if_false,
      List.foldl_cons, h4]
    rw [foldl_except_error _ (fun e m => rfl)]

/-- C2 witness: the not-found branch instantiated at `fsNotFound`. -/
theorem claim2_witness :
    ((fsNotFound.canon "d/A.yaml" ∉ ([] : List String))
      ∧ fsNotFound.readFile "d/A.yaml" = some ⟨["P"], {}⟩
      ∧ (⟨["P"], {}⟩ : RawProfile).extendsList = ["P"]
      ∧ resolveExtends fsNotFound.pathExists "P" (parentDir "d/A.yaml") [] = none)
    ∧ loadProfile fsNotFound [] 1 "d/A.yaml" [] = .error (.notFound "P" "d/A.yaml") :=
  ⟨⟨by decide, rfl, rfl, by decide⟩,
   claim2_resolution_order.2 fsNotFound [] 0 "d/A.yaml" [] ⟨["P"], {}⟩ "P" []
     (by decide) rfl rfl (by decide)⟩

/-- C8: the set of visited canonicalised paths is threaded through the
recursive resolution, so any revisit of an already-visited profile
file immediately raises the cycle error naming that file; in
particular loading `A` (which extends `B`, which extends `A`)
terminates within a recursion depth of 5 with the cycle error naming
`d/A.yaml`. -/
theorem claim8_cycle_detection :
    (∀ (fs : FileSystem) (sd : List String) (fuel : Nat) (path : String)
        (visited : List String),
        fs.canon path ∈ visited →
        loadProfile fs sd (fuel + 1) path visited = .error (.cycle (fs.canon path)))
    ∧ loadProfile fsAB [] 5 "d/A.yaml" [] = .error (.cycle "d/A.yaml") := by
  constructor
  · intro fs sd fuel path visited h
    simp only [loadProfile, if_pos h]
  · decide

/-- C8 witness: the revisit clause instantiated at `fsAB` with
`d/A.yaml` already visited. -/
theorem claim8_witness :
    (fsAB.canon "d/A.yaml" ∈ ["d/A.yaml"])
    ∧ loadProfile fsAB [] 1 "d/A.yaml" ["d/A.yaml"]
        = .error (.cycle (fsAB.canon "d/A.yaml")) :=
  ⟨by decide,
   claim8_cycle_detection.1 fsAB [] 0 "d/A.yaml" ["d/A.yaml"] (by decide)⟩

/-! ### Conflict kinds and severities -/

theorem mountMode_mem (profiles : List Profile) :
    ∀ c ∈ checkMountModeConflicts profiles,
      c.kind = "mount-mode" ∧ c.severity = "warning" := by
  intro c hc
  rw [checkMountModeConflicts, List.mem_filterMap] at hc
  obtain ⟨e, _, he⟩ := hc
  split at he
  · cases he; exact ⟨rfl, rfl⟩
  · cases he

theorem roSubdir_mem (merged : MergedLite) :
    ∀ c ∈ checkRoWritableSubdir merged,
      c.kind = "ro-writable-subdir" ∧ c.severity = "warning" := by
  intro c hc
  rw [checkRoWritableSubdir] at hc
  simp only [List.mem_flatMap, List.mem_filterMap] at hc
  obtain ⟨rwp, _, rop, _, he⟩ := hc
  split at he
  · cases he; exact ⟨rfl, rfl⟩
  · cases he

theorem envOverridesGo_mem (s : List (String × String)) :
    ∀ (seen : List (String × String)), ∀ c ∈ envOverridesGo seen s,
      c.kind = "env-override" ∧ c.severity = "warning" := by
  induction s with
  | nil => intro seen c hc; cases hc
  | cons kv rest ih =>
    intro seen c hc
    obtain ⟨k, v⟩ := kv
    rw [envOverridesGo, List.mem_append] at hc
    rcases hc with hc | hc
    · rcases hl : lookupKey seen k with _ | w
      · rw [hl] at hc; cases hc
      · rw [hl] at hc
        have hc2 : c ∈ (if w ≠ v then [mkEnvOverride k w v] else []) := hc
        by_cases hw : w ≠ v
        · rw [if_pos hw] at hc2
          have hceq := List.mem_singleton.mp hc2
          subst hceq; exact ⟨rfl, rfl⟩
        · rw [if_neg hw] at hc2; cases hc2
    · exact ih (setKey seen k v) c hc

theorem nsContradictions_eq (merged : MergedLite) :
    checkNamespaceContradictions merged =
      (if "--unshare-net" ∈ merged.args ∧ "--share-net" ∈ merged.args then
        [mkNsContradiction "--unshare-net" "--share-net"]
      else []) := by
  by_cases h : "--unshare-net" ∈ merged.args ∧ "--share-net" ∈ merged.args <;>
    simp [checkNamespaceContradictions, contradictingNsPairs, List.filterMap, h]

/-- C7: whenever the merged args contain both `--unshare-net` and
`--share-net`, `detect_conflicts` returns exactly one conflict of kind
`ns-contradiction`, and its severity is `error`; every conflict of any
other kind carries severity `warning`. -/
theorem claim7_ns_error_severity :
    ∀ profiles : List Profile,
      "--unshare-net" ∈ (quickMerge profiles).args →
      "--share-net" ∈ (quickMerge profiles).args →
      ((detectConflicts profiles none).filter (fun c => c.kind == "ns-contradiction")
          = [mkNsContradiction "--unshare-net" "--share-net"])
        ∧ (mkNsContradiction "--unshare-net" "--share-net").severity = "error"
        ∧ (∀ c ∈ detectConflicts profiles none,
            c.kind ≠ "ns-contradiction" → c.severity = "warning") := by
  intro profiles h1 h2
  have hns : checkNamespaceContradictions (quickMerge profiles)
      = [mkNsContradiction "--unshare-net" "--share-net"] := by
    rw [nsContradictions_eq, if_pos ⟨h1, h2⟩]
  have hdet : detectConflicts profiles none
      = checkMountModeConflicts profiles
          ++ checkRoWritableSubdir (quickMerge profiles)
          ++ checkEnvOverrides profiles
          ++ [mkNsContradiction "--unshare-net" "--share-net"] := by
    rw [detectConflicts, Option.getD, hns]
  refine ⟨?_, rfl, ?_⟩
  · rw [hdet]
    rw [List.filter_append, List.filter_append, List.filter_append]
    have hA : (checkMountModeConflicts profiles).filter
        (fun c => c.kind == "ns-contradiction") = [] := by
      rw [List.filter_eq_nil_iff]
      intro c hc
      have := (mountMode_mem profiles c hc).1
      simp [this]
    have hB : (checkRoWritableSubdir (quickMerge profiles)).filter
        (fun c => c.kind == "ns-contradiction") = [] := by
      rw [List.filter_eq_nil_iff]
      intro c hc
      have := (roSubdir_mem _ c hc).1
      simp [this]
    have hC : (checkEnvOverrides profiles).filter
        (fun c => c.kind == "ns-contradiction") = [] := by
      rw [List.filter_eq_nil_iff]
      intro c hc
      have := (envOverridesGo_mem _ [] c hc).1
      simp [this]
    rw [hA, hB, hC]
    decide
  · intro c hc hne
    rw [hdet] at hc
    simp only [List.mem_append] at hc
    rcases hc with ((hc | hc) | hc) | hc
    · exact (mountMode_mem profiles c hc).2
    · exact (roSubdir_mem _ c hc).2
    · exact (envOverridesGo_mem _ [] c hc).2
    · have hceq := List.mem_singleton.mp hc
      subst hceq; exact absurd rfl hne

/-- C7 witness: the theorem instantiated at two profiles declaring
`--unshare-net` and `--share-net` respectively. -/
theorem claim7_witness :
    ("--unshare-net" ∈ (quickMerge [{ args := some ["--unshare-net"] },
                                    { args := some ["--share-net"] }]).args
      ∧ "--share-net" ∈ (quickMerge [{ args := some ["--unshare-net"] },
                                     { args := some ["--share-net"] }]).args)
    ∧ ((detectConflicts [{ args := some ["--unshare-net"] },
                         { args := some ["--share-net"] }] none).filter
          (fun c => c.kind == "ns-contradiction")
        = [mkNsContradiction "--unshare-net" "--share-net"]) :=
  ⟨⟨by decide, by decide⟩,
   (claim7_ns_error_severity [{ args := some ["--unshare-net"] },
                              { args := some ["--share-net"] }]
      (by decide) (by decide)).1⟩

/-! Mutual-exclusion facts about the flag tables. -/

theorem one_not_two : ∀ t ∈ oneArgFlags, t ∉ twoArgFlags := by decide

theorem ns_not_one : ∀ t ∈ nsFlags, t ∉ oneArgFlags := by decide

theorem ns_not_two : ∀ t ∈ nsFlags, t ∉ twoArgFlags := by decide

theorem dir_sub_one : ∀ t ∈ dirFlags, t ∈ oneArgFlags := by decide

theorem late_sub_one : ∀ t ∈ lateFlags, t ∈ oneArgFlags := by decide

theorem dir_not_late : ∀ t ∈ dirFlags, t ∉ lateFlags := by decide

theorem late_not_dir : ∀ t ∈ lateFlags, t ∉ dirFlags := by decide

theorem nsTok_eq_some {g : List String} {t : String} (h : nsTok g = some t) :
    g = [t] ∧ t ∈ nsFlags := by
  match g with
  | [] => simp [nsTok] at h
  | [u] =>
    by_cases hu : u ∈ nsFlags
    · rw [nsTok, if_pos hu] at h
      cases h; exact ⟨rfl, hu⟩
    · rw [nsTok, if_neg hu] at h; cases h
  | [_, _] => simp [nsTok] at h
  | _ :: _ :: _ :: _ => simp [nsTok] at h

theorem dirPair_eq_some {g : List String} {pr : String × String}
    (h : dirPair g = some pr) : g = [pr.1, pr.2] ∧ pr.1 ∈ dirFlags := by
  match g with
  | [] => simp [dirPair] at h
  | [_] => simp [dirPair] at h
  | [u, a] =>
    by_cases hu : u ∈ dirFlags
    · rw [dirPair, if_pos hu] at h
      cases h; exact ⟨rfl, hu⟩
    · rw [dirPair, if_neg hu] at h; cases h
  | _ :: _ :: _ :: _ => simp [dirPair] at h

theorem latePair_eq_some {g : List String} {pr : String × String}
    (h : latePair g = some pr) : g = [pr.1, pr.2] ∧ pr.1 ∈ lateFlags := by
  match g with
  | [] => simp [latePair] at h
  | [_] => simp [latePair] at h
  | [u, a] =>
    by_cases hu : u ∈ lateFlags
    · rw [latePair, if_pos hu] at h
      cases h; exact ⟨rfl, hu⟩
    · rw [latePair, if_neg hu] at h; cases h
  | _ :: _ :: _ :: _ => simp [latePair] at h

/-! Basic facts about `dedupAppend`. -/

theorem mem_dedupAppend {α : Type} [DecidableEq α] (l : List α) :
    ∀ (acc : List α) (x : α), x ∈ dedupAppend acc l → x ∈ acc ∨ x ∈ l := by
  induction l with
  | nil => intro acc x h; exact Or.inl h
  | cons y ys ih =>
    intro acc x h
    rw [dedupAppend, List.foldl_cons] at h
    rcases ih _ x h with h' | h'
    · by_cases hy : y ∈ acc
      · rw [if_pos hy] at h'; exact Or.inl h'
      · rw [if_neg hy] at h'
        rcases List.mem_append.mp h' with h'' | h''
        · exact Or.inl h''
        · have hxy := List.mem_singleton.mp h''
          subst hxy
          exact Or.inr (List.mem_cons_self _ _)
    · exact Or.inr (List.mem_cons_of_mem y h')

theorem nodup_dedupAppend {α : Type} [DecidableEq α] (l : List α) :
    ∀ acc : List α, acc.Nodup → (dedupAppend acc l).Nodup := by
  induction l with
  | nil => intro acc h; exact h
  | cons y ys ih =>
    intro acc h
    rw [dedupAppend, List.foldl_cons]
    by_cases hy : y ∈ acc
    · rw [if_pos hy]; exact ih acc h
    · rw [if_neg hy]
      refine ih _ ?_
      simp [List.nodup_append, h, hy]

theorem dedupAppend_eq_append {α : Type} [DecidableEq α] (l : List α) :
    ∀ acc : List α, (∀ x ∈ l, x ∉ acc) → l.Nodup → dedupAppend acc l = acc ++ l := by
  induction l with
  | nil => intro acc _ _; simp [dedupAppend]
  | cons y ys ih =>
    intro acc hd hn
    rw [dedupAppend, List.foldl_cons, if_neg (hd y (List.mem_cons_self y ys))]
    change dedupAppend (acc ++ [y]) ys = acc ++ y :: ys
    rw [ih (acc ++ [y]) ?_ (List.Nodup.of_cons hn)]
    · simp
    · intro x hx
      simp only [List.mem_append, List.mem_singleton]
      rintro (hxa | hxy)
      · exact hd x (List.mem_cons_of_mem y hx) hxa
      · subst hxy
        exact (List.nodup_cons.mp hn).1 hx

theorem dedupAppend_nil_eq {α : Type} [DecidableEq α] (l : List α) (h : l.Nodup) :
    dedupAppend [] l = l := by
  simpa using dedupAppend_eq_append l [] (by simp) h

/-! Basic facts about `setKey` / `envUpdate`. -/

/-- An association list with pairwise distinct keys (every Python
dict). -/
def NodupKeys (l : List (String × String)) : Prop := (l.map Prod.fst).Nodup

theorem mem_keys_setKey (l : List (String × String)) (k v x : String) :
    x ∈ (setKey l k v).map Prod.fst → x ∈ l.map Prod.fst ∨ x = k := by
  induction l with
  | nil =>
    intro h
    simp [setKey] at h
    exact Or.inr h
  | cons kv rest ih =>
    intro h
    by_cases hk : kv.1 == k
    · rw [setKey, if_pos hk] at h
      rcases List.mem_cons.mp h with h' | h'
      · exact Or.inr h'
      · exact Or.inl (List.mem_cons_of_mem _ h')
    · rw [setKey, if_neg (by simpa using hk)] at h
      rcases List.mem_cons.mp h with h' | h'
      · exact Or.inl (h' ▸ List.mem_cons_self _ _)
      · rcases ih h' with h'' | h''
        · exact Or.inl (List.mem_cons_of_mem _ h'')
        · exact Or.inr h''

theorem setKey_nodupKeys (l : List (String × String)) (k v : String) :
    NodupKeys l → NodupKeys (setKey l k v) := by
  induction l with
  | nil => intro _; simp [setKey, NodupKeys]
  | cons kv rest ih =>
    intro h
    rw [NodupKeys, List.map_cons, List.nodup_cons] at h
    by_cases hk : kv.1 == k
    · rw [setKey, if_pos hk]
      rw [NodupKeys, List.map_cons, List.nodup_cons]
      exact ⟨by rw [← beq_iff_eq.mp hk]; exact h.1, h.2⟩
    · rw [setKey, if_neg (by simpa using hk)]
      rw [NodupKeys, List.map_cons, List.nodup_cons]
      refine ⟨?_, ih h.2⟩
      intro hmem
      rcases mem_keys_setKey rest k v kv.1 hmem with h' | h'
      · exact h.1 h'
      · exact absurd h' (by simpa using hk)

theorem setKey_of_not_mem (l : List (String × String)) (k v : String)
    (h : k ∉ l.map Prod.fst) : setKey l k v = l ++ [(k, v)] := by
  induction l with
  | nil => rfl
  | cons kv rest ih =>
    rw [List.map_cons, List.mem_cons] at h
    push_neg at h
    rw [setKey, if_neg (by simpa using fun he => h.1 he.symm)]
    rw [ih h.2, List.cons_append]

theorem envUpdate_nodupKeys (l : List (String × String)) :
    ∀ base : List (String × String), NodupKeys base → NodupKeys (envUpdate base l) := by
  induction l with
  | nil => intro base h; exact h
  | cons kv rest ih =>
    intro base h
    rw [envUpdate, List.foldl_cons]
    exact ih _ (setKey_nodupKeys base kv.1 kv.2 h)

theorem envUpdate_eq_append (l : List (String × String)) :
    ∀ base : List (String × String), NodupKeys l →
      (∀ k ∈ l.map Prod.fst, k ∉ base.map Prod.fst) →
      envUpdate base l = base ++ l := by
  induction l with
  | nil => intro base _ _; simp [envUpdate]
  | cons kv rest ih =>
    intro base hn hd
    rw [NodupKeys, List.map_cons, List.nodup_cons] at hn
    rw [envUpdate, List.foldl_cons]
    change envUpdate (setKey base kv.1 kv.2) rest = base ++ kv :: rest
    rw [setKey_of_not_mem base kv.1 kv.2 (hd kv.1 (by simp))]
    rw [ih (base ++ [(kv.1, kv.2)]) hn.2 ?_]
    · simp
    · intro k hk
      rw [List.map_append]
      simp only [List.mem_append, List.map_cons, List.map_nil, List.mem_singleton,
        List.not_mem_nil, or_false]
      push_neg
      exact ⟨fun hkb => hd k (List.mem_cons_of_mem _ hk) hkb,
             fun hke => hn.1 (hke ▸ hk)⟩

theorem envUpdate_nil_eq (l : List (String × String)) (h : NodupKeys l) :
    envUpdate [] l = l := by
  simpa using envUpdate_eq_append l [] h (by simp)

theorem two_not_one : ∀ t ∈ twoArgFlags, t ∉ oneArgFlags := by decide

theorem complete_ne_nil {g : List String} (h : isCompleteGroup g = true) : g ≠ [] := by
  intro he
  subst he
  simp [isCompleteGroup] at h

theorem flatten_eq_nil {gs : List (List String)}
    (h : ∀ g ∈ gs, isCompleteGroup g = true) (hf : gs.flatten = []) : gs = [] := by
  cases gs with
  | nil => rfl
  | cons g gs =>
    rw [List.flatten_cons] at hf
    rcases List.append_eq_nil.mp hf with ⟨hg, _⟩
    exact absurd hg (complete_ne_nil (h g (List.mem_cons_self _ _)))

/-- Re-grouping: `_group_args` applied to the concatenation of
complete groups recovers exactly those groups. -/
theorem groupArgs_flatten (gs : List (List String))
    (h : ∀ g ∈ gs, isCompleteGroup g = true) : groupArgs gs.flatten = gs := by
  induction gs with
  | nil => rfl
  | cons g gs ih =>
    have hg := h g (List.mem_cons_self _ _)
    have hrest : ∀ g' ∈ gs, isCompleteGroup g' = true :=
      fun g' hg' => h g' (List.mem_cons_of_mem _ hg')
    have ih' := ih hrest
    rcases g with _ | ⟨t, _ | ⟨a, _ | ⟨b, grest⟩⟩⟩
    · exact absurd rfl (complete_ne_nil hg)
    · -- singleton group
      simp only [isCompleteGroup, Bool.and_eq_true, decide_eq_true_eq] at hg
      obtain ⟨ht2, ht1⟩ := hg
      rw [List.flatten_cons, List.singleton_append]
      rcases hfl : gs.flatten with _ | ⟨a, _ | ⟨b, r⟩⟩
      · have hnil := flatten_eq_nil hrest hfl
        subst hnil
        rfl
      · rw [hfl] at ih'
        simp only [groupArgs] at ih' ⊢
        rw [if_neg ht1, ← ih']
      · rw [hfl] at ih'
        simp only [groupArgs] at ih' ⊢
        rw [if_neg ht2, if_neg ht1, ← ih']
    · -- pair group
      simp only [isCompleteGroup, decide_eq_true_eq] at hg
      have ht2 : t ∉ twoArgFlags := one_not_two t hg
      rw [List.flatten_cons]
      rw [show ([t, a] : List String) ++ gs.flatten = t :: a :: gs.flatten from rfl]
      rcases hfl : gs.flatten with _ | ⟨b, r⟩
      · have hnil := flatten_eq_nil hrest hfl
        subst hnil
        simp only [groupArgs]
        rw [if_pos hg]
      · rw [hfl] at ih'
        simp only [groupArgs] at ih' ⊢
        rw [if_neg ht2, if_pos hg, ← ih']
    · -- triple group (or longer, excluded by completeness)
      rcases grest with _ | ⟨c, grest2⟩
      · simp only [isCompleteGroup, decide_eq_true_eq] at hg
        rw [List.flatten_cons]
        rw [show ([t, a, b] : List String) ++ gs.flatten = t :: a :: b :: gs.flatten from rfl]
        simp only [groupArgs]
        rw [if_pos hg, ih']
      · simp [isCompleteGroup] at hg

/-- Bucketing: `_organize_args`' scan over the concatenation of
complete groups classifies exactly the namespace singletons, `--dir`
pairs, `--chdir` pairs, and remaining groups. -/
theorem bucketize_flatten (gs : List (List String))
    (h : ∀ g ∈ gs, isCompleteGroup g = true) :
    bucketize gs.flatten =
      ⟨nsTokens gs, gs.filterMap dirPair, gs.filterMap latePair,
       (gs.filter isOtherG).flatten⟩ := by
  induction gs with
  | nil => rfl
  | cons g gs ih =>
    have hg := h g (List.mem_cons_self _ _)
    have hrest : ∀ g' ∈ gs, isCompleteGroup g' = true :=
      fun g' hg' => h g' (List.mem_cons_of_mem _ hg')
    have ih' := ih hrest
    rcases g with _ | ⟨t, _ | ⟨a, _ | ⟨b, grest⟩⟩⟩
    · exact absurd rfl (complete_ne_nil hg)
    · -- singleton group
      simp only [isCompleteGroup, Bool.and_eq_true, decide_eq_true_eq] at hg
      obtain ⟨ht2, ht1⟩ := hg
      have htd : t ∉ dirFlags := fun hd => ht1 (dir_sub_one t hd)
      have htl : t ∉ lateFlags := fun hl => ht1 (late_sub_one t hl)
      rw [List.flatten_cons, List.singleton_append]
      by_cases hns : t ∈ nsFlags
      · rcases hfl : gs.flatten with _ | ⟨a, _ | ⟨b, r⟩⟩
        · have hnil := flatten_eq_nil hrest hfl
          subst hnil
          simp [bucketize, nsTokens, nsTok, dirPair, latePair, isOtherG, hns]
        · rw [hfl] at ih'
          simp only [bucketize] at ih' ⊢
          rw [if_pos hns, ih']
          simp [nsTokens, nsTok, dirPair, latePair, isOtherG, hns]
        · rw [hfl] at ih'
          simp only [bucketize] at ih' ⊢
          rw [if_pos hns, ih']
          simp [nsTokens, nsTok, dirPair, latePair, isOtherG, hns]
      · rcases hfl : gs.flatten with _ | ⟨a, _ | ⟨b, r⟩⟩
        · have hnil := flatten_eq_nil hrest hfl
          subst hnil
          simp [bucketize, nsTokens, nsTok, dirPair, latePair, isOtherG, hns]
        · rw [hfl] at ih'
          simp only [bucketize] at ih' ⊢
          rw [if_neg hns, if_neg htd, if_neg htl, if_neg ht1, ih']
          simp [nsTokens, nsTok, dirPair, latePair, isOtherG, hns]
        · rw [hfl] at ih'
          simp only [bucketize] at ih' ⊢
          rw [if_neg hns, if_neg htd, if_neg htl, if_neg ht2, if_neg ht1, ih']
          simp [nsTokens, nsTok, dirPair, latePair, isOtherG, hns]
    · -- pair group
      simp only [isCompleteGroup, decide_eq_true_eq] at hg
      have ht2 : t ∉ twoArgFlags := one_not_two t hg
      have hns : t ∉ nsFlags := fun hn => ns_not_one t hn hg
      rw [List.flatten_cons]
      rw [show ([t, a] : List String) ++ gs.flatten = t :: a :: gs.flatten from rfl]
      by_cases htd : t ∈ dirFlags
      · have htl : t ∉ lateFlags := dir_not_late t htd
        rcases hfl : gs.flatten with _ | ⟨b, r⟩
        · have hnil := flatten_eq_nil hrest hfl
          subst hnil
          simp [bucketize, nsTokens, nsTok, dirPair, latePair, isOtherG, hns, htd, htl]
        · rw [hfl] at ih'
          simp only [bucketize] at ih' ⊢
          rw [if_neg hns, if_pos htd, ih']
          simp [nsTokens, nsTok, dirPair, latePair, isOtherG, hns, htd, htl]
      · by_cases htl : t ∈ lateFlags
        · rcases hfl : gs.flatten with _ | ⟨b, r⟩
          · have hnil := flatten_eq_nil hrest hfl
            subst hnil
            simp [bucketize, nsTokens, nsTok, dirPair, latePair, isOtherG, hns, htd, htl]
          · rw [hfl] at ih'
            simp only [bucketize] at ih' ⊢
            rw [if_neg hns, if_neg htd, if_pos htl, ih']
            simp [nsTokens, nsTok, dirPair, latePair, isOtherG, hns, htd, htl]
        · rcases hfl : gs.flatten with _ | ⟨b, r⟩
          · have hnil := flatten_eq_nil hrest hfl
            subst hnil
            simp [bucketize, nsTokens, nsTok, dirPair, latePair, isOtherG, hns, htd, htl, hg]
          · rw [hfl] at ih'
            simp only [bucketize] at ih' ⊢
            rw [if_neg hns, if_neg htd, if_neg htl, if_neg ht2, if_pos hg, ih']
            simp [nsTokens, nsTok, dirPair, latePair, isOtherG, hns, htd, htl]
    · -- triple group (or longer, excluded by completeness)
      rcases grest with _ | ⟨c, grest2⟩
      · simp only [isCompleteGroup, decide_eq_true_eq] at hg
        have ht1 : t ∉ oneArgFlags := two_not_one t hg
        have hns : t ∉ nsFlags := fun hn => ns_not_two t hn hg
        have htd : t ∉ dirFlags := fun hd => ht1 (dir_sub_one t hd)
        have htl : t ∉ lateFlags := fun hl => ht1 (late_sub_one t hl)
        rw [List.flatten_cons]
        rw [show ([t, a, b] : List String) ++ gs.flatten = t :: a :: b :: gs.flatten from rfl]
        simp only [bucketize] at ih' ⊢
        rw [if_neg hns, if_neg htd, if_neg htl, if_pos hg, ih']
        simp [nsTokens, nsTok, dirPair, latePair, isOtherG, hns]
      · simp [isCompleteGroup] at hg

theorem flatten_map_singleton (l : List String) :
    (l.map (fun t => [t])).flatten = l := by
  induction l with
  | nil => rfl
  | cons t l ih => simp [ih]

theorem flatPairs_cons (p : String × String) (l : List (String × String)) :
    flatPairs (p :: l) = p.1 :: p.2 :: flatPairs l := rfl

theorem flatten_filter_dir (gs : List (List String)) :
    (gs.filter (fun g => (dirPair g).isSome)).flatten
      = flatPairs (gs.filterMap dirPair) := by
  induction gs with
  | nil => rfl
  | cons g gs ih =>
    rcases hd : dirPair g with _ | pr
    · simp [List.filter_cons, List.filterMap_cons, hd, ih]
    · have hge := (dirPair_eq_some hd).1
      subst hge
      simp [List.filter_cons, List.filterMap_cons, hd, flatPairs_cons, ih]

theorem flatten_filter_late (gs : List (List String)) :
    (gs.filter (fun g => (latePair g).isSome)).flatten
      = flatPairs (gs.filterMap latePair) := by
  induction gs with
  | nil => rfl
  | cons g gs ih =>
    rcases hd : latePair g with _ | pr
    · simp [List.filter_cons, List.filterMap_cons, hd, ih]
    · have hge := (latePair_eq_some hd).1
      subst hge
      simp [List.filter_cons, List.filterMap_cons, hd, flatPairs_cons, ih]

/-- `_organize_args` over complete groups produces exactly the
flattening of the bucket-ordered group list. -/
theorem organizeArgs_flatten (gs : List (List String))
    (h : ∀ g ∈ gs, isCompleteGroup g = true) :
    organizeArgs gs.flatten = (bucketGroups gs).flatten := by
  rw [organizeArgs, bucketize_flatten gs h, bucketGroups]
  simp only [List.flatten_append]
  rw [flatten_map_singleton, flatten_filter_dir, flatten_filter_late]

theorem bucketGroups_complete (gs : List (List String))
    (h : ∀ g ∈ gs, isCompleteGroup g = true) :
    ∀ g ∈ bucketGroups gs, isCompleteGroup g = true := by
  intro g hgm
  rw [bucketGroups] at hgm
  simp only [List.mem_append] at hgm
  rcases hgm with ((hgm | hgm) | hgm) | hgm
  · rw [List.mem_map] at hgm
    obtain ⟨t, ht, hgt⟩ := hgm
    rw [sortStr, List.mem_insertionSort] at ht
    rw [nsTokens, List.mem_filterMap] at ht
    obtain ⟨g', _, hg'⟩ := ht
    have htns := (nsTok_eq_some hg').2
    subst hgt
    simp [isCompleteGroup, ns_not_one t htns, ns_not_two t htns]
  · exact h g (List.mem_filter.mp hgm).1
  · exact h g (List.mem_filter.mp hgm).1
  · exact h g (List.mem_filter.mp hgm).1

theorem map_singleton_nsTokens (gs : List (List String)) :
    (nsTokens gs).map (fun t => [t]) = gs.filter (fun g => (nsTok g).isSome) := by
  induction gs with
  | nil => rfl
  | cons g gs ih =>
    rcases hn : nsTok g with _ | t
    · simp only [nsTokens, List.filterMap_cons, List.filter_cons, hn,
        Option.isSome_none, Bool.false_eq_true, if_false]
      exact ih
    · have hge := (nsTok_eq_some hn).1
      subst hge
      simp only [nsTokens, List.filterMap_cons, List.filter_cons, hn,
        Option.isSome_some, if_true, List.map_cons, List.cons.injEq, true_and]
      exact ih

theorem bucketGroups_perm (gs : List (List String)) :
    (bucketGroups gs).Perm gs := by
  rw [bucketGroups]
  simp only [List.append_assoc]
  have hns : ((sortStr (nsTokens gs)).map (fun t => [t])).Perm
      (gs.filter (fun g => (nsTok g).isSome)) := by
    rw [← map_singleton_nsTokens]
    exact (List.perm_insertionSort _ _).map _
  have hsplit1 := List.filter_append_perm (fun g => (nsTok g).isSome) gs
  have hdir : gs.filter (fun g => (dirPair g).isSome)
      = (gs.filter (fun g => !(nsTok g).isSome)).filter (fun g => (dirPair g).isSome) := by
    rw [List.filter_filter]
    refine (List.filter_congr ?_).symm
    intro g _
    rcases hd : dirPair g with _ | pr
    · simp
    · have hge := (dirPair_eq_some hd).1
      have : nsTok g = none := by rw [hge]; rfl
      simp [this]
  have hlate : gs.filter (fun g => (latePair g).isSome)
      = ((gs.filter (fun g => !(nsTok g).isSome)).filter
          (fun g => !(dirPair g).isSome)).filter (fun g => (latePair g).isSome) := by
    rw [List.filter_filter, List.filter_filter]
    refine (List.filter_congr ?_).symm
    intro g _
    rcases hd : latePair g with _ | pr
    · simp
    · have hge := (latePair_eq_some hd).1
      have hnsg : nsTok g = none := by rw [hge]; rfl
      have hdg : dirPair g = none := by
        rw [hge, dirPair, if_neg (late_not_dir _ (latePair_eq_some hd).2)]
      simp [hnsg, hdg]
  have hother : gs.filter isOtherG
      = ((gs.filter (fun g => !(nsTok g).isSome)).filter
          (fun g => !(dirPair g).isSome)).filter (fun g => !(latePair g).isSome) := by
    rw [List.filter_filter, List.filter_filter]
    refine List.filter_congr ?_
    intro g _
    rw [isOtherG]
    rcases hn : nsTok g with _ | t <;> rcases hd : dirPair g with _ | pr <;>
      rcases hl : latePair g with _ | pr2 <;> simp [hn, hd, hl]
  refine List.Perm.trans (List.Perm.append hns ?_) hsplit1
  have hsplit2 := List.filter_append_perm (fun g => (dirPair g).isSome)
      (gs.filter (fun g => !(nsTok g).isSome))
  refine List.Perm.trans (List.Perm.append (by rw [hdir]) ?_) hsplit2
  have hsplit3 := List.filter_append_perm (fun g => (latePair g).isSome)
      ((gs.filter (fun g => !(nsTok g).isSome)).filter (fun g => !(dirPair g).isSome))
  refine List.Perm.trans ?_ hsplit3
  refine List.Perm.trans List.perm_append_comm ?_
  exact List.Perm.append (by rw [hlate]) (by rw [hother])

theorem bucketGroups_nodup (gs : List (List String)) (h : gs.Nodup) :
    (bucketGroups gs).Nodup :=
  (bucketGroups_perm gs).nodup_iff.mpr h

theorem dirSome_nsTok {g : List String} (h : (dirPair g).isSome = true) :
    nsTok g = none := by
  obtain ⟨pr, hd⟩ := Option.isSome_iff_exists.mp h
  rw [(dirPair_eq_some hd).1]; rfl

theorem dirSome_latePair {g : List String} (h : (dirPair g).isSome = true) :
    latePair g = none := by
  obtain ⟨pr, hd⟩ := Option.isSome_iff_exists.mp h
  rw [(dirPair_eq_some hd).1, latePair,
    if_neg (dir_not_late _ (dirPair_eq_some hd).2)]

theorem dirSome_isOther {g : List String} (h : (dirPair g).isSome = true) :
    isOtherG g = false := by
  rw [isOtherG]
  obtain ⟨pr, hd⟩ := Option.isSome_iff_exists.mp h
  simp [hd]

theorem lateSome_nsTok {g : List String} (h : (latePair g).isSome = true) :
    nsTok g = none := by
  obtain ⟨pr, hd⟩ := Option.isSome_iff_exists.mp h
  rw [(latePair_eq_some hd).1]; rfl

theorem lateSome_dirPair {g : List String} (h : (latePair g).isSome = true) :
    dirPair g = none := by
  obtain ⟨pr, hd⟩ := Option.isSome_iff_exists.mp h
  rw [(latePair_eq_some hd).1, dirPair,
    if_neg (late_not_dir _ (latePair_eq_some hd).2)]

theorem lateSome_isOther {g : List String} (h : (latePair g).isSome = true) :
    isOtherG g = false := by
  rw [isOtherG]
  obtain ⟨pr, hd⟩ := Option.isSome_iff_exists.mp h
  simp [hd]

theorem other_nsTok {g : List String} (h : isOtherG g = true) : nsTok g = none := by
  rw [isOtherG, Bool.and_eq_true, Bool.and_eq_true] at h
  exact Option.isNone_iff_eq_none.mp h.1.1

theorem other_dirPair {g : List String} (h : isOtherG g = true) : dirPair g = none := by
  rw [isOtherG, Bool.and_eq_true, Bool.and_eq_true] at h
  exact Option.isNone_iff_eq_none.mp h.1.2

theorem other_latePair {g : List String} (h : isOtherG g = true) : latePair g = none := by
  rw [isOtherG, Bool.and_eq_true] at h
  exact Option.isNone_iff_eq_none.mp h.2

theorem ns_single_dirPair {t : String} : dirPair [t] = none := rfl

theorem ns_single_latePair {t : String} : latePair [t] = none := rfl

theorem mem_ns_part {g : List String} {gs : List (List String)}
    (h : g ∈ (sortStr (nsTokens gs)).map (fun t => [t])) :
    ∃ t, g = [t] ∧ t ∈ nsFlags := by
  rw [List.mem_map] at h
  obtain ⟨t, ht, hgt⟩ := h
  rw [sortStr, List.mem_insertionSort, nsTokens, List.mem_filterMap] at ht
  obtain ⟨g', _, hg'⟩ := ht
  exact ⟨t, hgt.symm, (nsTok_eq_some hg').2⟩

theorem filterMap_nsTok_map_singleton (l : List String)
    (h : ∀ t ∈ l, t ∈ nsFlags) :
    (l.map (fun t => [t])).filterMap nsTok = l := by
  induction l with
  | nil => rfl
  | cons t l ih =>
    have hns := h t (List.mem_cons_self _ _)
    simp only [List.map_cons, List.filterMap_cons, nsTok, if_pos hns]
    rw [ih (fun u hu => h u (List.mem_cons_of_mem _ hu))]

theorem nsTokens_bucketGroups (gs : List (List String)) :
    nsTokens (bucketGroups gs) = sortStr (nsTokens gs) := by
  rw [bucketGroups, nsTokens, List.filterMap_append, List.filterMap_append,
    List.filterMap_append]
  have ha : ((sortStr (nsTokens gs)).map (fun t => [t])).filterMap nsTok
      = sortStr (nsTokens gs) := by
    refine filterMap_nsTok_map_singleton _ (fun t ht => ?_)
    rw [sortStr, List.mem_insertionSort, nsTokens, List.mem_filterMap] at ht
    obtain ⟨g', _, hg'⟩ := ht
    exact (nsTok_eq_some hg').2
  have hb : (gs.filter (fun g => (dirPair g).isSome)).filterMap nsTok = [] :=
    List.filterMap_eq_nil_iff.mpr
      (fun g hg => dirSome_nsTok (List.mem_filter.mp hg).2)
  have hc : (gs.filter isOtherG).filterMap nsTok = [] :=
    List.filterMap_eq_nil_iff.mpr
      (fun g hg => other_nsTok (List.mem_filter.mp hg).2)
  have hd : (gs.filter (fun g => (latePair g).isSome)).filterMap nsTok = [] :=
    List.filterMap_eq_nil_iff.mpr
      (fun g hg => lateSome_nsTok (List.mem_filter.mp hg).2)
  rw [ha, hb, hc, hd]
  simp

theorem dirFilter_bucketGroups (gs : List (List String)) :
    (bucketGroups gs).filter (fun g => (dirPair g).isSome)
      = gs.filter (fun g => (dirPair g).isSome) := by
  rw [bucketGroups, List.filter_append, List.filter_append, List.filter_append]
  have ha : ((sortStr (nsTokens gs)).map (fun t => [t])).filter
      (fun g => (dirPair g).isSome) = [] := by
    refine List.filter_eq_nil_iff.mpr (fun g hg => ?_)
    obtain ⟨t, hgt, _⟩ := mem_ns_part hg
    simp [hgt, ns_single_dirPair]
  have hb : (gs.filter (fun g => (dirPair g).isSome)).filter
      (fun g => (dirPair g).isSome) = gs.filter (fun g => (dirPair g).isSome) := by
    rw [List.filter_filter]
    exact List.filter_congr (fun g _ => by cases h : (dirPair g).isSome <;> simp [h])
  have hc : (gs.filter isOtherG).filter (fun g => (dirPair g).isSome) = [] := by
    refine List.filter_eq_nil_iff.mpr (fun g hg => ?_)
    have := other_dirPair (List.mem_filter.mp hg).2
    simp [this]
  have hd : (gs.filter (fun g => (latePair g).isSome)).filter
      (fun g => (dirPair g).isSome) = [] := by
    refine List.filter_eq_nil_iff.mpr (fun g hg => ?_)
    have := lateSome_dirPair (List.mem_filter.mp hg).2
    simp [this]
  rw [ha, hb, hc, hd]
  simp

theorem lateFilter_bucketGroups (gs : List (List String)) :
    (bucketGroups gs).filter (fun g => (latePair g).isSome)
      = gs.filter (fun g => (latePair g).isSome) := by
  rw [bucketGroups, List.filter_append, List.filter_append, List.filter_append]
  have ha : ((sortStr (nsTokens gs)).map (fun t => [t])).filter
      (fun g => (latePair g).isSome) = [] := by
    refine List.filter_eq_nil_iff.mpr (fun g hg => ?_)
    obtain ⟨t, hgt, _⟩ := mem_ns_part hg
    simp [hgt, ns_single_latePair]
  have hb : (gs.filter (fun g => (dirPair g).isSome)).filter
      (fun g => (latePair g).isSome) = [] := by
    refine List.filter_eq_nil_iff.mpr (fun g hg => ?_)
    have := dirSome_latePair (List.mem_filter.mp hg).2
    simp [this]
  have hc : (gs.filter isOtherG).filter (fun g => (latePair g).isSome) = [] := by
    refine List.filter_eq_nil_iff.mpr (fun g hg => ?_)
    have := other_latePair (List.mem_filter.mp hg).2
    simp [this]
  have hd : (gs.filter (fun g => (latePair g).isSome)).filter
      (fun g => (latePair g).isSome) = gs.filter (fun g => (latePair g).isSome) := by
    rw [List.filter_filter]
    exact List.filter_congr (fun g _ => by cases h : (latePair g).isSome <;> simp [h])
  rw [ha, hb, hc, hd]
  simp

theorem otherFilter_bucketGroups (gs : List (List String)) :
    (bucketGroups gs).filter isOtherG = gs.filter isOtherG := by
  rw [bucketGroups, List.filter_append, List.filter_append, List.filter_append]
  have ha : ((sortStr (nsTokens gs)).map (fun t => [t])).filter isOtherG = [] := by
    refine List.filter_eq_nil_iff.mpr (fun g hg => ?_)
    obtain ⟨t, hgt, htns⟩ := mem_ns_part hg
    subst hgt
    simp [isOtherG, nsTok, if_pos htns]
  have hb : (gs.filter (fun g => (dirPair g).isSome)).filter isOtherG = [] := by
    refine List.filter_eq_nil_iff.mpr (fun g hg => ?_)
    have := dirSome_isOther (List.mem_filter.mp hg).2
    simp [this]
  have hc : (gs.filter isOtherG).filter isOtherG = gs.filter isOtherG := by
    rw [List.filter_filter]
    exact List.filter_congr (fun g _ => by cases h : isOtherG g <;> simp [h])
  have hd : (gs.filter (fun g => (latePair g).isSome)).filter isOtherG = [] := by
    refine List.filter_eq_nil_iff.mpr (fun g hg => ?_)
    have := lateSome_isOther (List.mem_filter.mp hg).2
    simp [this]
  rw [ha, hb, hc, hd]
  simp

theorem sortStr_idem (l : List String) : sortStr (sortStr l) = sortStr l := by
  haveI : IsTotal String (· ≤ ·) := ⟨le_total⟩
  haveI : IsTrans String (· ≤ ·) := ⟨fun a b c hab hbc => le_trans hab hbc⟩
  exact List.Sorted.insertionSort_eq (List.sorted_insertionSort _ l)

theorem bucketGroups_idem (gs : List (List String)) :
    bucketGroups (bucketGroups gs) = bucketGroups gs := by
  conv_lhs => rw [bucketGroups]
  rw [nsTokens_bucketGroups, sortStr_idem, dirFilter_bucketGroups,
    otherFilter_bucketGroups, lateFilter_bucketGroups]
  rw [bucketGroups]

/-- C4: composition is idempotent on well-formed profiles (profiles
whose `args` parse into complete flag groups):
`compose([compose([p1, p2])])` equals `compose([p1, p2])` — the merged
mounts, env, argument groups, run and tmpfs/dev/proc are unchanged by
re-grouping, re-deduplicating and re-ordering. -/
theorem claim4_compose_idempotent :
    ∀ p1 p2 : Profile, WellFormedArgs p1 → WellFormedArgs p2 →
      composeProfiles [composeProfiles [p1, p2]] = composeProfiles [p1, p2] := by
  intro p1 p2 h1 h2
  have hDdef : composeGroups [p1, p2]
      = dedupAppend (dedupAppend [] (groupArgs (p1.args.getD [])))
          (groupArgs (p2.args.getD [])) := rfl
  have hDc : ∀ g ∈ composeGroups [p1, p2], isCompleteGroup g = true := by
    intro g hgm
    rw [hDdef] at hgm
    rcases mem_dedupAppend _ _ _ hgm with hm | hm
    · rcases mem_dedupAppend _ _ _ hm with hm2 | hm2
      · cases hm2
      · exact h1 g hm2
    · exact h2 g hm
  have hDn : (composeGroups [p1, p2]).Nodup := by
    rw [hDdef]
    exact nodup_dedupAppend _ _ (nodup_dedupAppend _ _ List.nodup_nil)
  have hMn : (composeMounts [p1, p2]).Nodup :=
    nodup_dedupAppend _ _ (nodup_dedupAppend _ _ List.nodup_nil)
  have hM : composeMounts [composeProfiles [p1, p2]] = composeMounts [p1, p2] :=
    dedupAppend_nil_eq _ hMn
  have hEn : NodupKeys (composeEnv [p1, p2]) :=
    envUpdate_nodupKeys _ _ (envUpdate_nodupKeys _ _ (by simp [NodupKeys]))
  have hE : composeEnv [composeProfiles [p1, p2]] = composeEnv [p1, p2] :=
    envUpdate_nil_eq _ hEn
  have hGc := bucketGroups_complete _ hDc
  have horg : organizeArgs (composeGroups [p1, p2]).flatten
      = (bucketGroups (composeGroups [p1, p2])).flatten :=
    organizeArgs_flatten _ hDc
  have hG2 : composeGroups [composeProfiles [p1, p2]]
      = bucketGroups (composeGroups [p1, p2]) := by
    show dedupAppend [] (groupArgs (organizeArgs (composeGroups [p1, p2]).flatten))
        = bucketGroups (composeGroups [p1, p2])
    rw [horg, groupArgs_flatten _ hGc]
    exact dedupAppend_nil_eq _ (bucketGroups_nodup _ hDn)
  have hA : organizeArgs (composeGroups [composeProfiles [p1, p2]]).flatten
      = organizeArgs (composeGroups [p1, p2]).flatten := by
    rw [hG2, organizeArgs_flatten _ hGc, bucketGroups_idem, ← horg]
  have hR : composeRun [composeProfiles [p1, p2]] = composeRun [p1, p2] := rfl
  have hT : composePaths (fun p => p.tmpfs) [composeProfiles [p1, p2]]
      = composePaths (fun p => p.tmpfs) [p1, p2] :=
    dedupAppend_nil_eq _ (nodup_dedupAppend _ _ (nodup_dedupAppend _ _ List.nodup_nil))
  have hDv : composePaths (fun p => p.dev) [composeProfiles [p1, p2]]
      = composePaths (fun p => p.dev) [p1, p2] :=
    dedupAppend_nil_eq _ (nodup_dedupAppend _ _ (nodup_dedupAppend _ _ List.nodup_nil))
  have hP : composePaths (fun p => p.proc) [composeProfiles [p1, p2]]
      = composePaths (fun p => p.proc) [p1, p2] :=
    dedupAppend_nil_eq _ (nodup_dedupAppend _ _ (nodup_dedupAppend _ _ List.nodup_nil))
  calc composeProfiles [composeProfiles [p1, p2]]
      = { mounts := some (composeMounts [composeProfiles [p1, p2]])
          env := some (composeEnv [composeProfiles [p1, p2]])
          args := some (organizeArgs (composeGroups [composeProfiles [p1, p2]]).flatten)
          run := some (composeRun [composeProfiles [p1, p2]])
          tmpfs := some (.list (composePaths (fun p => p.tmpfs) [composeProfiles [p1, p2]]))
          dev := some (.list (composePaths (fun p => p.dev) [composeProfiles [p1, p2]]))
          proc := some (.list (composePaths (fun p => p.proc) [composeProfiles [p1, p2]])) } := rfl
    _ = { mounts := some (composeMounts [p1, p2])
          env := some (composeEnv [p1, p2])
          args := some (organizeArgs (composeGroups [p1, p2]).flatten)
          run := some (composeRun [p1, p2])
          tmpfs := some (.list (composePaths (fun p => p.tmpfs) [p1, p2]))
          dev := some (.list (composePaths (fun p => p.dev) [p1, p2]))
          proc := some (.list (composePaths (fun p => p.proc) [p1, p2])) } := by
        rw [hM, hE, hA, hR, hT, hDv, hP]
    _ = composeProfiles [p1, p2] := rfl

/-- C4 witness: idempotence at two concrete well-formed profiles. -/
theorem claim4_witness :
    (WellFormedArgs { mounts := some [{ host := some "/", container := some "/", mode := some "ro" }],
                      env := some [("A", "1")], args := some ["--unshare-all"],
                      run := some (some (.list ["/bin/sh"])) }
      ∧ WellFormedArgs { env := some [("B", "2")], args := some ["--dir", "/bin"] })
    ∧ composeProfiles [composeProfiles
        [{ mounts := some [{ host := some "/", container := some "/", mode := some "ro" }],
           env := some [("A", "1")], args := some ["--unshare-all"],
           run := some (some (.list ["/bin/sh"])) },
         { env := some [("B", "2")], args := some ["--dir", "/bin"] }]]
      = composeProfiles
        [{ mounts := some [{ host := some "/", container := some "/", mode := some "ro" }],
           env := some [("A", "1")], args := some ["--unshare-all"],
           run := some (some (.list ["/bin/sh"])) },
         { env := some [("B", "2")], args := some ["--dir", "/bin"] }] :=
  ⟨⟨by decide, by decide⟩,
   claim4_compose_idempotent _ _ (by decide) (by decide)⟩

end BwrapCompose
